import Mathlib

/-!
Verification development for the QvQChat message-markup parser and
segmented-delivery engine (`src/QvQChat/utils.py`).

Python strings are modelled as `List Char`; Python string slicing
`text[a:b]` becomes `pySlice text a b`, `str.strip()` becomes `pyStrip`
(over the ASCII whitespace class recognised by the regexes' `\s`), and
`str.replace(old, "", 1)` becomes `removeFirst`.

Each compiled regular expression of the source is embedded as a
deterministic matcher `List Char → Option (capture × consumed)`.  All
patterns in the source are concatenations of literals, `\s*`/`\s+`,
`[^"]*`/`[^']*` followed by the closing quote, and `\d+` followed by a
closing quote; for such patterns greedy matching with backtracking is
deterministic (the greedy sub-pattern can never give back a character
that would satisfy the following literal), so the embedding needs no
backtracking.  `re.search(text, i)` becomes `findFrom` applied to
`text.drop i` (leftmost match); `re.finditer` becomes `finditerFrom`
(repeated leftmost search continuing at each match end).
-/

/-- ASCII whitespace class of the regex `\s` and of `str.strip`
(space, tab, newline, carriage return, vertical tab, form feed). -/
def pySpace (c : Char) : Bool :=
  c == ' ' || c == '\t' || c == '\n' || c == '\r' || c == '\x0b' || c == '\x0c'

/-- Python `str.strip()`: remove leading and trailing whitespace. -/
def pyStrip (cs : List Char) : List Char :=
  ((cs.dropWhile pySpace).reverse.dropWhile pySpace).reverse

/-- Python slice `text[a:b]`. -/
def pySlice (cs : List Char) (a b : Nat) : List Char :=
  (cs.drop a).take (b - a)

/-- Python `text.replace(old, "", 1)`: remove the first occurrence of
`old` (no change when `old` does not occur). -/
def removeFirst (old : List Char) : List Char → List Char
  | [] => []
  | c :: cs =>
    if old.isPrefixOf (c :: cs) then (c :: cs).drop old.length
    else c :: removeFirst old cs

/-- Python `int` on a (non-empty, digits-only) captured group. -/
def digitsToNat (ds : List Char) : Nat :=
  ds.foldl (fun n c => n * 10 + (c.toNat - 48)) 0

/-! ### Matcher combinators -/

/-- Consume an exact literal; return the remaining suffix. -/
def expectLit : List Char → List Char → Option (List Char)
  | [], cs => some cs
  | _ :: _, [] => none
  | l :: ls, c :: cs => if c == l then expectLit ls cs else none

/-- Consume a literal case-insensitively (`re.IGNORECASE`); the literal
is given in lower case. -/
def expectLitCI : List Char → List Char → Option (List Char)
  | [], cs => some cs
  | _ :: _, [] => none
  | l :: ls, c :: cs => if c.toLower == l then expectLitCI ls cs else none

/-- Greedy `\s*`. -/
def dropWs : List Char → List Char
  | [] => []
  | c :: cs => if pySpace c then dropWs cs else c :: cs

/-- Greedy `\s+` (at least one whitespace character). -/
def expectWs1 : List Char → Option (List Char)
  | [] => none
  | c :: cs => if pySpace c then some (dropWs cs) else none

/-- Regex fragment `([^q]*)q`: capture up to (excluding) the next
occurrence of `q`, consuming that occurrence; fail when `q` does not
occur in the rest of the input. -/
def captureUntil (q : Char) : List Char → Option (List Char × List Char)
  | [] => none
  | c :: cs =>
    if c == q then some ([], cs)
    else (captureUntil q cs).map (fun p => (c :: p.1, p.2))

/-- Regex fragment `(\d+)"`: capture one or more ASCII digits, then
consume the closing double quote. -/
def captureDigits (cs : List Char) : Option (List Char × List Char) :=
  let ds := cs.takeWhile Char.isDigit
  if ds.isEmpty then none
  else
    match expectLit ['"'] (cs.drop ds.length) with
    | some r => some (ds, r)
    | none => none

/-! ### The eight voice-tag spellings, the wait separator, and the two
case-insensitive helper patterns of `parse_multi_messages`.

The four open spellings (source `start_pattern1..4`, case-sensitive)
share one shape and differ only in the quote character `q` and the
closing delimiter `d`:
`<\|\s*voice\s+style\s*=\s*q([^q]*)q\s*d` with
`(q, d) ∈ {(", |>), (", >), (', |>), (', >)}`. -/

def matchOpenQD (q : Char) (d : List Char) (cs : List Char) :
    Option (List Char × Nat) := do
  let r1 ← expectLit ['<', '|'] cs
  let r2 := dropWs r1
  let r3 ← expectLit ['v', 'o', 'i', 'c', 'e'] r2
  let r4 ← expectWs1 r3
  let r5 ← expectLit ['s', 't', 'y', 'l', 'e'] r4
  let r6 := dropWs r5
  let r7 ← expectLit ['='] r6
  let r8 := dropWs r7
  let r9 ← expectLit [q] r8
  let (cap, r10) ← captureUntil q r9
  let r11 := dropWs r10
  let r12 ← expectLit d r11
  some (cap, cs.length - r12.length)

/-- Open-tag match at the current position.  The source searches all
four variants separately and keeps the one with the smallest start
offset, resolving equal starts in the list order `1,2,3,4`; searching
positions left to right and trying the variants in that same order at
each position yields the identical result. -/
def matchOpenAt (cs : List Char) : Option (List Char × Nat) :=
  (matchOpenQD '"' ['|', '>'] cs).orElse fun _ =>
  (matchOpenQD '"' ['>'] cs).orElse fun _ =>
  (matchOpenQD '\'' ['|', '>'] cs).orElse fun _ =>
  matchOpenQD '\'' ['>'] cs

/-- Close spellings 1 and 2 (source `end_pattern1/2`, case-sensitive):
`<\|\s*/\s*voice\s*d` with `d ∈ {|>, >}`. -/
def matchClosePipe (d : List Char) (cs : List Char) : Option (Unit × Nat) := do
  let r1 ← expectLit ['<', '|'] cs
  let r2 := dropWs r1
  let r3 ← expectLit ['/'] r2
  let r4 := dropWs r3
  let r5 ← expectLit ['v', 'o', 'i', 'c', 'e'] r4
  let r6 := dropWs r5
  let r7 ← expectLit d r6
  some ((), cs.length - r7.length)

/-- Close spellings 3 and 4 (source `end_pattern3/4`, case-sensitive):
`</\s*voice\s*d` with `d ∈ {|>, >}`. -/
def matchCloseSlash (d : List Char) (cs : List Char) : Option (Unit × Nat) := do
  let r1 ← expectLit ['<', '/'] cs
  let r2 := dropWs r1
  let r3 ← expectLit ['v', 'o', 'i', 'c', 'e'] r2
  let r4 := dropWs r3
  let r5 ← expectLit d r4
  some ((), cs.length - r5.length)

/-- Close-tag match at the current position, variants tried in the
source's order `1,2,3,4` (same equivalence with min-start selection as
for `matchOpenAt`). -/
def matchCloseAt (cs : List Char) : Option (Unit × Nat) :=
  (matchClosePipe ['|', '>'] cs).orElse fun _ =>
  (matchClosePipe ['>'] cs).orElse fun _ =>
  (matchCloseSlash ['|', '>'] cs).orElse fun _ =>
  matchCloseSlash ['>'] cs

/-- Wait separator `<\|\s*wait\s+time\s*=\s*"(\d+)"\s*\|>` with
`re.IGNORECASE` (source `wait_pattern`); capture is the digit string. -/
def matchWaitAt (cs : List Char) : Option (List Char × Nat) := do
  let r1 ← expectLit ['<', '|'] cs
  let r2 := dropWs r1
  let r3 ← expectLitCI ['w', 'a', 'i', 't'] r2
  let r4 ← expectWs1 r3
  let r5 ← expectLitCI ['t', 'i', 'm', 'e'] r4
  let r6 := dropWs r5
  let r7 ← expectLit ['='] r6
  let r8 := dropWs r7
  let r9 ← expectLit ['"'] r8
  let (ds, r10) ← captureDigits r9
  let r11 := dropWs r10
  let r12 ← expectLit ['|', '>'] r11
  some (ds, cs.length - r12.length)

/-- Implicit-split close tag `<\|\s*/\s*voice\s*\|>` with
`re.IGNORECASE` (source `voice_end_pattern`): only the first close
spelling, unlike the resolver's four. -/
def matchVoiceEndAt (cs : List Char) : Option (Unit × Nat) := do
  let r1 ← expectLit ['<', '|'] cs
  let r2 := dropWs r1
  let r3 ← expectLit ['/'] r2
  let r4 := dropWs r3
  let r5 ← expectLitCI ['v', 'o', 'i', 'c', 'e'] r4
  let r6 := dropWs r5
  let r7 ← expectLit ['|', '>'] r6
  some ((), cs.length - r7.length)

/-- Start of an open tag `<\|\s*voice\s+` with `re.IGNORECASE` (source
`next_voice_start` search). -/
def matchVoiceOpenHeadAt (cs : List Char) : Option (Unit × Nat) := do
  let r1 ← expectLit ['<', '|'] cs
  let r2 := dropWs r1
  let r3 ← expectLitCI ['v', 'o', 'i', 'c', 'e'] r2
  let r4 ← expectWs1 r3
  some ((), cs.length - r4.length)

/-! ### Leftmost search and `finditer` -/

/-- `re.search` on a suffix: the leftmost position at which the matcher
succeeds, together with its capture and consumed length. -/
def findFrom {α : Type} (m : List Char → Option (α × Nat)) :
    List Char → Option (Nat × α × Nat)
  | [] => (m []).map (fun an => (0, an.1, an.2))
  | c :: cs =>
    match m (c :: cs) with
    | some (a, n) => some (0, a, n)
    | none => (findFrom m cs).map (fun pan => (pan.1 + 1, pan.2.1, pan.2.2))

/-- `re.finditer`: all non-overlapping matches of `m` in `text`,
scanning left to right from offset `i`; each element is
`(start, capture, end)` in absolute offsets.  After a match the scan
resumes at its end (advancing one position for an empty match, which
never occurs for the patterns above).  `fuel` bounds the number of
matches; `text.length + 1` always suffices for non-empty matches. -/
def finditerFrom {α : Type} (m : List Char → Option (α × Nat))
    (text : List Char) : Nat → Nat → List (Nat × α × Nat)
  | 0, _ => []
  | fuel + 1, i =>
    match findFrom m (text.drop i) with
    | none => []
    | some (p, a, n) =>
      (i + p, a, i + p + n) ::
        finditerFrom m text fuel (if n = 0 then i + p + 1 else i + p + n)

def finditer {α : Type} (m : List Char → Option (α × Nat))
    (text : List Char) : List (Nat × α × Nat) :=
  finditerFrom m text (text.length + 1) 0

/-! ### Voice-block resolver (`_parse_voice_tags_with_stack`) -/

/-- A resolved voice block (source dict with keys `start`, `end`,
`style`, `content`, and optionally `is_unclosed`; the missing key
defaults to `False` via `.get("is_unclosed", False)`).  `stop` is the
source's `end` field (`end` is a Lean keyword). -/
structure VoiceBlock where
  start : Nat
  stop : Nat
  style : List Char
  content : List Char
  is_unclosed : Bool
deriving DecidableEq, Repr

/-- Stack entry for an open tag awaiting its close (source dict with
keys `start`, `end`, `style`, `content_start`). -/
structure OpenEntry where
  start : Nat
  stop : Nat
  style : List Char
  content_start : Nat
deriving DecidableEq, Repr

/-- Result of `matchOpenAt` search, in absolute offsets, style capture
still raw (the source strips it when pushing). -/
structure OpenMatch where
  start : Nat
  stop : Nat
  style : List Char
deriving DecidableEq, Repr

structure CloseMatch where
  start : Nat
  stop : Nat
deriving DecidableEq, Repr

/-- Earliest open tag at or after offset `i` (min-start over the four
spellings, cf. `matchOpenAt`). -/
def findOpenFrom (text : List Char) (i : Nat) : Option OpenMatch :=
  (findFrom matchOpenAt (text.drop i)).map
    (fun pan => OpenMatch.mk (i + pan.1) (i + pan.1 + pan.2.2) pan.2.1)

/-- Earliest close tag at or after offset `i`. -/
def findCloseFrom (text : List Char) (i : Nat) : Option CloseMatch :=
  (findFrom matchCloseAt (text.drop i)).map
    (fun pan => CloseMatch.mk (i + pan.1) (i + pan.1 + pan.2.2))

/-- Leftover open tags become `UnclosedAtEnd` blocks: span to the end
of the text, content from `content_start` to the end, stripped. -/
def mkUnclosedBlock (text : List Char) (e : OpenEntry) : VoiceBlock :=
  VoiceBlock.mk e.start text.length e.style (pyStrip (text.drop e.content_start)) true

/-- Flush the stack at the end of the scan.  The stack is held with the
most recent open at the head; the source iterates the Python list from
bottom to top, hence the `reverse`. -/
def flushStack (text : List Char) (stack : List OpenEntry) : List VoiceBlock :=
  stack.reverse.map (mkUnclosedBlock text)

/-- The scan loop of `_parse_voice_tags_with_stack`.  One unit of fuel
is spent per iteration; every iteration advances `i` past a non-empty
match, so `text.length + 1` units always suffice.  The branch structure
mirrors the source exactly: an open is consumed when
`start_match and (not end_match or start_match.start() < end_match.start())`,
otherwise a close is consumed when present, otherwise the loop breaks. -/
def parseLoop (text : List Char) :
    Nat → Nat → List OpenEntry → List VoiceBlock → List VoiceBlock
  | 0, _, stack, blocks => blocks ++ flushStack text stack
  | fuel + 1, i, stack, blocks =>
    if i < text.length then
      match findOpenFrom text i, findCloseFrom text i with
      | none, none => blocks ++ flushStack text stack
      | some om, none =>
        parseLoop text fuel om.stop
          (OpenEntry.mk om.start om.stop (pyStrip om.style) om.stop :: stack) blocks
      | none, some em =>
        match stack with
        | top :: rest =>
          parseLoop text fuel em.stop rest
            (blocks ++ [VoiceBlock.mk top.start em.stop top.style
              (pyStrip (pySlice text top.content_start em.start)) false])
        | [] =>
          parseLoop text fuel em.stop []
            (blocks ++ [VoiceBlock.mk em.start em.stop [] [] false])
      | some om, some em =>
        if om.start < em.start then
          parseLoop text fuel om.stop
            (OpenEntry.mk om.start om.stop (pyStrip om.style) om.stop :: stack) blocks
        else
          match stack with
          | top :: rest =>
            parseLoop text fuel em.stop rest
              (blocks ++ [VoiceBlock.mk top.start em.stop top.style
                (pyStrip (pySlice text top.content_start em.start)) false])
          | [] =>
            parseLoop text fuel em.stop []
              (blocks ++ [VoiceBlock.mk em.start em.stop [] [] false])
    else blocks ++ flushStack text stack

/-- `_parse_voice_tags_with_stack(text)`. -/
def _parse_voice_tags_with_stack (text : List Char) : List VoiceBlock :=
  parseLoop text (text.length + 1) 0 [] []

/-! ### Multi-message splitter (`parse_multi_messages`) -/

/-- One deliverable message (source dict with keys `content`, `delay`). -/
structure MsgInfo where
  content : List Char
  delay : Nat
deriving DecidableEq, Repr

/-- Test of the source's
`any(voice_block["start"] < match_pos < voice_block["end"] for ...)`:
is the offset strictly inside some resolved block span. -/
def insideAnyBlock (blocks : List VoiceBlock) (pos : Nat) : Bool :=
  blocks.any (fun b => decide (b.start < pos ∧ pos < b.stop))

/-- All wait-separator matches, in textual order. -/
def waitMatches (text : List Char) : List (Nat × List Char × Nat) :=
  finditer matchWaitAt text

/-- One step of the separator scan.  State is
`(parts, current_start, has_wait_separator)`; a match strictly inside a
voice block is skipped, a valid match appends the stripped content run
and the captured delay digits to `parts` and moves `current_start` to
the match end. -/
def waitScanStep (text : List Char) (blocks : List VoiceBlock)
    (st : List (List Char) × Nat × Bool) (m : Nat × List Char × Nat) :
    List (List Char) × Nat × Bool :=
  if insideAnyBlock blocks m.1 then st
  else (st.1 ++ [pyStrip (pySlice text st.2.1 m.1), m.2.1], m.2.2, true)

/-- The separator scan of `parse_multi_messages` (the `finditer` loop). -/
def waitScan (text : List Char) (blocks : List VoiceBlock) :
    List (List Char) × Nat × Bool :=
  (waitMatches text).foldl (waitScanStep text blocks) ([], 0, false)

/-- All `<|/voice|>`-spelling close tags, in textual order (used only
by the implicit split). -/
def voiceEndMatches (text : List Char) : List (Nat × Unit × Nat) :=
  finditer matchVoiceEndAt text

/-- The implicit-split loop of `parse_multi_messages`: for each
`<|/voice|>` match, when the stripped remainder after its end is
non-empty, the end offset is not strictly inside another block and the
remainder does not begin with a voice-open tag at offset 0, split into
the stripped prefix (delay 0) and the stripped remainder (delay 1). -/
def implicitSplit (text : List Char) (blocks : List VoiceBlock) :
    List (Nat × Unit × Nat) → Option (List MsgInfo)
  | [] => none
  | m :: rest =>
    let voice_end_pos := m.2.2
    let remaining_text := pyStrip (text.drop voice_end_pos)
    let is_inside_another_voice := insideAnyBlock blocks voice_end_pos
    if remaining_text ≠ [] ∧ is_inside_another_voice = false then
      match findFrom matchVoiceOpenHeadAt remaining_text with
      | none =>
        let part1 := pyStrip (text.take voice_end_pos)
        let part2 := pyStrip (text.drop voice_end_pos)
        if part2 ≠ [] then some [MsgInfo.mk part1 0, MsgInfo.mk part2 1]
        else implicitSplit text blocks rest
      | some nvs =>
        if 0 < nvs.1 then
          let part1 := pyStrip (text.take voice_end_pos)
          let part2 := pyStrip (text.drop voice_end_pos)
          if part2 ≠ [] then some [MsgInfo.mk part1 0, MsgInfo.mk part2 1]
          else implicitSplit text blocks rest
        else implicitSplit text blocks rest
    else implicitSplit text blocks rest

/-- The pairwise message-building loop
(`for i in range(0, len(parts), 2): if i + 1 < len(parts): ...`):
consume `parts` two at a time as (content, delay digits); content runs
that strip to empty are dropped.  A trailing unpaired element is
handled separately by `oddTail`. -/
def buildPairs : List (List Char) → List MsgInfo
  | p1 :: p2 :: rest =>
    (if pyStrip p1 ≠ [] then [MsgInfo.mk (pyStrip p1) (digitsToNat p2)] else [])
      ++ buildPairs rest
  | _ => []

/-- The source's
`if len(parts) % 2 == 1 and parts[-1].strip(): append (parts[-1].strip(), 0)`. -/
def oddTail (parts : List (List Char)) : List MsgInfo :=
  match parts.getLast? with
  | some p =>
    if parts.length % 2 = 1 ∧ pyStrip p ≠ [] then [MsgInfo.mk (pyStrip p) 0]
    else []
  | none => []

def buildMessages (parts : List (List Char)) : List MsgInfo :=
  buildPairs parts ++ oddTail parts

/-- The `parts` list of the explicit-separator branch: the scan output
with the stripped tail of the text appended when non-empty. -/
def explicitParts (text : List Char) (blocks : List VoiceBlock) :
    List (List Char) :=
  let st := waitScan text blocks
  let last_part := pyStrip (text.drop st.2.1)
  if last_part ≠ [] then st.1 ++ [last_part] else st.1

/-- Result of `parse_multi_messages` together with its two logged
events, modelled as flags (`logger.warning` on an unclosed tag, and on
truncation past 3 messages). -/
structure MultiResult where
  messages : List MsgInfo
  unclosed_warning : Bool
  truncation_warning : Bool
deriving DecidableEq, Repr

/-- `parse_multi_messages(text)` with its logged events. -/
def parse_multi_core (text : List Char) : MultiResult :=
  let voice_blocks := _parse_voice_tags_with_stack text
  if (voice_blocks.getLast?.map VoiceBlock.is_unclosed).getD false then
    MultiResult.mk [MsgInfo.mk (pyStrip text) 0] true false
  else
    let st := waitScan text voice_blocks
    let last_part := pyStrip (text.drop st.2.1)
    if st.2.2 = false then
      match implicitSplit text voice_blocks (voiceEndMatches text) with
      | some msgs => MultiResult.mk msgs false false
      | none => MultiResult.mk [MsgInfo.mk last_part 0] false false
    else
      let messages := buildMessages (explicitParts text voice_blocks)
      if 3 < messages.length then MultiResult.mk (messages.take 3) false true
      else MultiResult.mk messages false false

/-- `parse_multi_messages(text)`: the returned message list. -/
def parse_multi_messages (text : List Char) : List MsgInfo :=
  (parse_multi_core text).messages

/-! ### Speak-tag extractor (`parse_speak_tags`) -/

/-- Result dict of `parse_speak_tags` (keys `text`, `voice_style`,
`voice_content`, `has_voice`). -/
structure SpeakResult where
  text : List Char
  voice_style : Option (List Char)
  voice_content : Option (List Char)
  has_voice : Bool
deriving DecidableEq, Repr

/-- `parse_speak_tags(text)`: take the first resolved block as the
voice directive and remove one occurrence of its literal tag-to-tag
substring from the text. -/
def parse_speak_tags (text : List Char) : SpeakResult :=
  match _parse_voice_tags_with_stack text with
  | [] => SpeakResult.mk text none none false
  | first_voice :: _ =>
    let voice_tag := pySlice text first_voice.start first_voice.stop
    SpeakResult.mk (pyStrip (removeFirst voice_tag text))
      (some first_voice.style) (some first_voice.content) true

/-! ### Dispatch scheduler (`MessageSender`)

The sender performs I/O through the platform adapter, the voice API and
the file system; those collaborators are modelled by a `SendOracle`.
Execution is modelled as a trace of events paired with an optional
uncaught Python exception (`TraceR`); `pseq` is sequential composition
with exception propagation (when the first action raises, the second is
skipped), and the source's `try/except` blocks become `match` on the
exception component.  `await asyncio.sleep(delay)` becomes a
`SendEvent.sleep` event. -/

inductive PyExc where
  | valueError : PyExc
  | sendError : PyExc
deriving DecidableEq, Repr

inductive SendEvent where
  | sleep (seconds : Nat) : SendEvent
  | sendText (s : List Char) : SendEvent
  | sendVoice (s : List Char) : SendEvent
  | logInfo : SendEvent
  | logWarn : SendEvent
  | logDebug : SendEvent
  | logErr : SendEvent
deriving DecidableEq, Repr

/-- Trace of performed events, plus the exception escaping the modelled
code block, if any. -/
abbrev TraceR : Type := List SendEvent × Option PyExc

/-- Sequential composition: if `a` raises, `b` is skipped. -/
def pseq (a : TraceR) (b : TraceR) : TraceR :=
  match a.2 with
  | some e => (a.1, some e)
  | none => (a.1 ++ b.1, b.2)

/-- External collaborators (spec section 6): the platform adapter's
text/voice send (which may raise), the voice synthesis call
`record_voice` (pure network I/O that catches all its own errors and
returns an optional file path), the file-existence check, the file
contents read for base64 encoding, and the platform's voice-support
capability. -/
structure SendOracle where
  textSendFails : List Char → Bool
  voiceSendFails : List Char → Bool
  recordVoiceResult : Option (List Char) → List Char → Option (List Char)
  pathExists : List Char → Bool
  fileData : List Char → List Char
  supportVoice : Bool

/-- `await adapter.Send.To(...).Text(s)`. -/
def adapterText (o : SendOracle) (s : List Char) : TraceR :=
  if o.textSendFails s then ([], some PyExc.sendError)
  else ([SendEvent.sendText s], none)

/-- `await adapter.Send.To(...).Voice(s)`. -/
def adapterVoice (o : SendOracle) (s : List Char) : TraceR :=
  if o.voiceSendFails s then ([], some PyExc.sendError)
  else ([SendEvent.sendVoice s], none)

/-- Python truthiness of an `Optional[str]`. -/
def optTruthy : Option (List Char) → Bool
  | some c => !c.isEmpty
  | none => false

/-- Python `format(value, ".128f")` as evaluated inside the f-string
`f'base64://{voice_data:.128f}'` of `_send_voice_file`.  The format
presentation type `f` is defined only for numeric values; CPython
raises `ValueError("Unknown format code 'f' for object of type 'str'")`
when the value is a `str`, which is the only value kind reaching this
expression (`voice_data` is the result of `.decode('utf-8')`). -/
def pyFormatF128Str (_voice_data : List Char) : Except PyExc (List Char) :=
  Except.error PyExc.valueError

/-- Evaluation of the whole f-string `f'base64://{voice_data:.128f}'`:
format the interpolated value, then prepend the literal scheme. -/
def fstringBase64 (voice_data : List Char) : Except PyExc (List Char) :=
  match pyFormatF128Str voice_data with
  | Except.error e => Except.error e
  | Except.ok s => Except.ok ("base64://".toList ++ s)

/-- `MessageSender._send_voice_file`: method 1 (base64 URI) inside a
`try/except` that logs at debug level and leaves `voice_sent` false;
method 2 (local path) attempted only when method 1 did not send, inside
its own `try/except` that logs a warning.  Neither method lets an
exception escape. -/
def _send_voice_file (o : SendOracle) (voice_file : List Char) : TraceR :=
  let body1 : TraceR :=
    match fstringBase64 (o.fileData voice_file) with
    | Except.error e => ([], some e)
    | Except.ok uri => pseq (adapterVoice o uri) ([SendEvent.logInfo], none)
  match body1 with
  | (evs, some _) =>
    let body2 : TraceR :=
      pseq (adapterVoice o voice_file) ([SendEvent.logInfo], none)
    (match body2 with
     | (evs2, some _) => (evs ++ [SendEvent.logDebug] ++ evs2 ++ [SendEvent.logWarn], none)
     | (evs2, none) => (evs ++ [SendEvent.logDebug] ++ evs2, none))
  | (evs, none) => (evs, none)

/-- `MessageSender._send_text_and_voice`: send the text when non-empty,
then the voice when present, supported and non-blank; `record_voice`
failures, a missing output file and lack of platform support all
downgrade to a logged skip. -/
def _send_text_and_voice (o : SendOracle) (text : List Char)
    (voice_style voice_content : Option (List Char)) : TraceR :=
  pseq
    (if text ≠ [] then pseq (adapterText o text) ([SendEvent.logInfo], none)
     else ([], none))
    (if optTruthy voice_content ∧ o.supportVoice = true then
      let c := voice_content.getD []
      if pyStrip c ≠ [] then
        match o.recordVoiceResult voice_style c with
        | some voice_file =>
          if o.pathExists voice_file then _send_voice_file o voice_file
          else ([SendEvent.logWarn], none)
        | none => ([SendEvent.logWarn], none)
      else ([SendEvent.logWarn], none)
    else if optTruthy voice_content ∧ o.supportVoice = false then
      ([SendEvent.logDebug], none)
    else ([], none))

/-- A `try/except Exception` block that logs the caught error: the
events performed before the raise are kept, an error log is appended,
and no exception escapes. -/
def tryLogErr (body : TraceR) : TraceR :=
  match body with
  | (evs, some _) => (evs ++ [SendEvent.logErr], none)
  | (evs, none) => (evs, none)

/-- `MessageSender._send_single_message`: the whole body (speak-tag
parsing, text send, voice send) runs inside one `try/except Exception`
that logs the error; no exception escapes. -/
def _send_single_message (o : SendOracle) (message : List Char) : TraceR :=
  tryLogErr
    (let speak_result := parse_speak_tags message
     if speak_result.has_voice then
       _send_text_and_voice o speak_result.text speak_result.voice_style
         speak_result.voice_content
     else
       pseq (adapterText o (pyStrip message)) ([SendEvent.logInfo], none))

/-- The per-segment loop of `MessageSender.send`: before segment `i>0`
with positive `delay`, suspend; then deliver the segment.  Note the
slept value is the current segment's own `delay` field. -/
def sendLoop (o : SendOracle) : Nat → List MsgInfo → TraceR
  | _, [] => ([], none)
  | i, m :: rest =>
    pseq
      (if 0 < i ∧ 0 < m.delay then ([SendEvent.sleep m.delay], none)
       else ([], none))
      (pseq (_send_single_message o m.content) (sendLoop o (i + 1) rest))

/-- `MessageSender.send` after the platform/adapter lookup (upstream
glue returning early with a warning; not modelled): parse the response
into messages and deliver them in order. -/
def MessageSender_send (o : SendOracle) (response : List Char) : TraceR :=
  let messages := parse_multi_messages response
  if messages.isEmpty then ([SendEvent.logWarn], none)
  else sendLoop o 0 messages

/-! ### Characterization of leftmost search -/

/-- `findFrom` finds nothing exactly when the matcher fails at every
position (positions past the end all see the empty suffix). -/
theorem findFrom_none_iff {α : Type} (m : List Char → Option (α × Nat)) :
    ∀ xs : List Char, findFrom m xs = none ↔ ∀ p : Nat, m (xs.drop p) = none := by
  intro xs
  induction xs with
  | nil =>
    simp only [findFrom, Option.map_eq_none', List.drop_nil]
    exact ⟨fun h _ => h, fun h => h 0⟩
  | cons c cs ih =>
    constructor
    · intro h p
      cases hm : m (c :: cs) with
      | some an => simp [findFrom, hm] at h
      | none =>
        simp only [findFrom, hm, Option.map_eq_none'] at h
        cases p with
        | zero => simpa using hm
        | succ q => simpa using (ih.mp h) q
    · intro h
      have h0 : m (c :: cs) = none := by simpa using h 0
      simp only [findFrom, h0, Option.map_eq_none']
      exact ih.mpr (fun p => by simpa using h (p + 1))

/-- `findFrom` returns `(p, a, n)` exactly when the matcher succeeds
with `(a, n)` at position `p` and fails at every earlier position. -/
theorem findFrom_some_iff {α : Type} (m : List Char → Option (α × Nat))
    (a : α) (n : Nat) :
    ∀ (xs : List Char) (p : Nat),
      findFrom m xs = some (p, a, n) ↔
        m (xs.drop p) = some (a, n) ∧ ∀ q : Nat, q < p → m (xs.drop q) = none := by
  intro xs
  induction xs with
  | nil =>
    intro p
    cases p with
    | zero =>
      simp only [findFrom, List.drop_nil]
      cases hm : m [] with
      | none => simp
      | some an => simp [Prod.ext_iff]
    | succ q =>
      simp only [findFrom, List.drop_nil]
      cases hm : m [] with
      | none => simp
      | some an =>
        constructor
        · intro h; simp [Prod.ext_iff] at h
        · rintro ⟨h1, h2⟩
          exact absurd (h2 0 (Nat.succ_pos q)) (by simp [hm, h1])
  | cons c cs ih =>
    intro p
    cases hm : m (c :: cs) with
    | some an =>
      obtain ⟨a', n'⟩ := an
      cases p with
      | zero =>
        simp only [findFrom, hm, List.drop_zero]
        constructor
        · intro h
          refine ⟨?_, fun q hq => absurd hq (Nat.not_lt_zero q)⟩
          obtain ⟨ha, hn⟩ : a' = a ∧ n' = n := by
            simpa [Prod.ext_iff] using h
          simp [ha, hn]
        · rintro ⟨h1, _⟩
          obtain ⟨ha, hn⟩ : a' = a ∧ n' = n := by
            simpa [Prod.ext_iff] using h1
          simp [ha, hn]
      | succ q =>
        simp only [findFrom, hm]
        constructor
        · intro h
          simp [Prod.ext_iff] at h
        · rintro ⟨h1, h2⟩
          exact absurd (h2 0 (Nat.succ_pos q)) (by simp [hm])
    | none =>
      cases p with
      | zero =>
        simp only [findFrom, hm, List.drop_zero]
        constructor
        · intro h
          simp only [Option.map_eq_some'] at h
          obtain ⟨⟨p', a', n'⟩, _, hpan⟩ := h
          simp [Prod.ext_iff] at hpan
        · rintro ⟨h1, _⟩
          exact absurd h1 (by simp)
      | succ q =>
        simp only [findFrom, hm]
        constructor
        · intro h
          simp only [Option.map_eq_some'] at h
          obtain ⟨⟨p', a', n'⟩, hfind, hpan⟩ := h
          obtain ⟨hp, ha, hn⟩ : p' + 1 = q + 1 ∧ a' = a ∧ n' = n := by
            simpa [Prod.ext_iff] using hpan
          obtain ⟨h1, h2⟩ := (ih q).mp (by
            rw [hfind]
            simp [Nat.succ_injective hp, ha, hn])
          refine ⟨by simpa using h1, ?_⟩
          intro r hr
          cases r with
          | zero => simpa using hm
          | succ r' => simpa using h2 r' (Nat.lt_of_succ_lt_succ hr)
        · rintro ⟨h1, h2⟩
          have hrec : findFrom m cs = some (q, a, n) := by
            refine (ih q).mpr ⟨by simpa using h1, ?_⟩
            intro r hr
            simpa using h2 (r + 1) (Nat.succ_lt_succ hr)
          simp [hrec]

/-- All the matchers fail on the empty suffix (they begin with a
two-character literal). -/
theorem matchOpenAt_nil : matchOpenAt [] = none := by decide

theorem matchCloseAt_nil : matchCloseAt [] = none := by decide

theorem matchWaitAt_nil : matchWaitAt [] = none := by decide

theorem matchVoiceEndAt_nil : matchVoiceEndAt [] = none := by decide

/-! ### Structure of the resolver output -/

theorem flushStack_unclosed (text : List Char) (stack : List OpenEntry) :
    ∀ b ∈ flushStack text stack, b.is_unclosed = true := by
  intro b hb
  simp only [flushStack, List.mem_map] at hb
  obtain ⟨e, _, he⟩ := hb
  rw [← he]; rfl

/-- Every run of the scan loop produces the accumulated blocks, then
paired/orphan blocks (never marked unclosed), then a flush of some
final stack. -/
theorem parseLoop_shape (text : List Char) :
    ∀ (fuel i : Nat) (stack : List OpenEntry) (blocks : List VoiceBlock),
      ∃ (mid : List VoiceBlock) (st : List OpenEntry),
        parseLoop text fuel i stack blocks = blocks ++ mid ++ flushStack text st ∧
          ∀ b ∈ mid, b.is_unclosed = false := by
  intro fuel
  induction fuel with
  | zero =>
    intro i stack blocks
    exact ⟨[], stack, by simp [parseLoop], by simp⟩
  | succ f ih =>
    intro i stack blocks
    by_cases hi : i < text.length
    · cases ho : findOpenFrom text i with
      | none =>
        cases hc : findCloseFrom text i with
        | none => exact ⟨[], stack, by simp [parseLoop, hi, ho, hc], by simp⟩
        | some em =>
          cases hs : stack with
          | cons top rest =>
            obtain ⟨mid, st, heq, hmid⟩ := ih em.stop rest
              (blocks ++ [VoiceBlock.mk top.start em.stop top.style
                (pyStrip (pySlice text top.content_start em.start)) false])
            refine ⟨VoiceBlock.mk top.start em.stop top.style
                (pyStrip (pySlice text top.content_start em.start)) false :: mid, st, ?_, ?_⟩
            · simp only [parseLoop, hi, ho, hc, if_pos, heq]
              simp
            · intro b hb
              rcases List.mem_cons.mp hb with h | h
              · rw [h]
              · exact hmid b h
          | nil =>
            obtain ⟨mid, st, heq, hmid⟩ := ih em.stop []
              (blocks ++ [VoiceBlock.mk em.start em.stop [] [] false])
            refine ⟨VoiceBlock.mk em.start em.stop [] [] false :: mid, st, ?_, ?_⟩
            · simp only [parseLoop, hi, ho, hc, heq]
              simp
            · intro b hb
              rcases List.mem_cons.mp hb with h | h
              · rw [h]
              · exact hmid b h
      | some om =>
        cases hc : findCloseFrom text i with
        | none =>
          obtain ⟨mid, st, heq, hmid⟩ := ih om.stop
            (OpenEntry.mk om.start om.stop (pyStrip om.style) om.stop :: stack) blocks
          exact ⟨mid, st, by simp only [parseLoop, hi, ho, hc, if_pos]; exact heq, hmid⟩
        | some em =>
          by_cases hlt : om.start < em.start
          · obtain ⟨mid, st, heq, hmid⟩ := ih om.stop
              (OpenEntry.mk om.start om.stop (pyStrip om.style) om.stop :: stack) blocks
            exact ⟨mid, st, by simp only [parseLoop, hi, ho, hc, hlt, if_pos]; exact heq, hmid⟩
          · cases hs : stack with
            | cons top rest =>
              obtain ⟨mid, st, heq, hmid⟩ := ih em.stop rest
                (blocks ++ [VoiceBlock.mk top.start em.stop top.style
                  (pyStrip (pySlice text top.content_start em.start)) false])
              refine ⟨VoiceBlock.mk top.start em.stop top.style
                  (pyStrip (pySlice text top.content_start em.start)) false :: mid, st, ?_, ?_⟩
              · simp only [parseLoop, hi, ho, hc, hlt, if_neg, if_pos, heq]
                simp
              · intro b hb
                rcases List.mem_cons.mp hb with h | h
                · rw [h]
                · exact hmid b h
            | nil =>
              obtain ⟨mid, st, heq, hmid⟩ := ih em.stop []
                (blocks ++ [VoiceBlock.mk em.start em.stop [] [] false])
              refine ⟨VoiceBlock.mk em.start em.stop [] [] false :: mid, st, ?_, ?_⟩
              · simp only [parseLoop, hi, ho, hc, hlt, if_neg, if_pos, heq]
                simp
              · intro b hb
                rcases List.mem_cons.mp hb with h | h
                · rw [h]
                · exact hmid b h
    · exact ⟨[], stack, by simp [parseLoop, hi], by simp⟩

/-- If any resolved block is unclosed, the *last* block is unclosed:
unclosed blocks are emitted only by the final stack flush, which is
appended after all paired/orphan blocks.  This is why the source's
check of `voice_blocks[-1]` alone detects an unclosed tag anywhere. -/
theorem unclosed_mem_imp_last (text : List Char)
    (h : ∃ b ∈ _parse_voice_tags_with_stack text, b.is_unclosed = true) :
    ((_parse_voice_tags_with_stack text).getLast?.map VoiceBlock.is_unclosed).getD false
      = true := by
  obtain ⟨b, hb, hbu⟩ := h
  obtain ⟨mid, st, heq, hmid⟩ := parseLoop_shape text (text.length + 1) 0 [] []
  unfold _parse_voice_tags_with_stack at hb ⊢
  rw [heq] at hb ⊢
  simp only [List.nil_append] at hb ⊢
  have hbf : b ∈ flushStack text st := by
    rcases List.mem_append.mp hb with h | h
    · exact absurd (hmid b h) (by simp [hbu])
    · exact h
  have hne : flushStack text st ≠ [] := by
    intro hnil; rw [hnil] at hbf; exact List.not_mem_nil b hbf
  rw [List.getLast?_append_of_ne_nil _ hne]
  obtain ⟨bl, hbl⟩ := List.getLast?_isSome.mpr hne |> Option.isSome_iff_exists.mp
  rw [hbl]
  have hblm : bl ∈ flushStack text st :=
    List.mem_of_mem_getLast? (Option.mem_def.mpr hbl)
  simp [flushStack_unclosed text st bl hblm]

/-! ### Claims C1, C2, C8, C10 -/

/-- Benign environment: no adapter call fails, voice synthesis is
unavailable, the platform supports voice. -/
def noFailOracle : SendOracle :=
  SendOracle.mk (fun _ => false) (fun _ => false) (fun _ _ => none)
    (fun _ => false) (fun _ => []) true

/-- Claim C1 (status: code bug).  For the input `A <|wait time="3"|> B`
the claim (and the spec) require the pipeline to send segment `A`
immediately and suspend 3 seconds before sending segment `B`.  The
parser attaches the separator's declared delay 3 to the *preceding*
segment `A` (delay-before-next semantics, as the source's own comment
states), but `MessageSender.send` sleeps the *current* segment's own
`delay` before sending it, so segment `B` (delay 0) is sent with no
suspension at all: the delivery trace contains no `sleep` event. -/
theorem claim_C1_no_delay_before_second_segment :
    parse_multi_messages ("A <|wait time=\"3\"|> B".toList)
        = [MsgInfo.mk ['A'] 3, MsgInfo.mk ['B'] 0] ∧
      MessageSender_send noFailOracle ("A <|wait time=\"3\"|> B".toList)
        = ([SendEvent.sendText ['A'], SendEvent.logInfo,
            SendEvent.sendText ['B'], SendEvent.logInfo], none) := by
  decide

/-- Claim C2 (status: confirmed).  Whenever the resolved block list
contains an unclosed block anywhere, `parse_multi_messages` skips both
the explicit-separator split and the implicit split and returns the
whole original text, stripped, as a single segment with delay 0 (the
source checks only the last block, but unclosed blocks are always
flushed to the tail of the list, cf. `unclosed_mem_imp_last`). -/
theorem claim_C2_unclosed_tag_single_message (text : List Char)
    (h : ∃ b ∈ _parse_voice_tags_with_stack text, b.is_unclosed = true) :
    parse_multi_messages text = [MsgInfo.mk (pyStrip text) 0] := by
  have hl := unclosed_mem_imp_last text h
  simp only [parse_multi_messages, parse_multi_core, hl, if_pos]

/-- Witness for C2: a text with one open tag and no close tag. -/
theorem claim_C2_witness :
    (∃ b ∈ _parse_voice_tags_with_stack ("<|voice style=\"s\"|>hi".toList),
        b.is_unclosed = true) ∧
      parse_multi_messages ("<|voice style=\"s\"|>hi".toList)
        = [MsgInfo.mk (pyStrip ("<|voice style=\"s\"|>hi".toList)) 0] :=
  ⟨by decide, claim_C2_unclosed_tag_single_message _ (by decide)⟩

/-- Claim C8 (status: corrected), counterexample.  With two voice
blocks in the input, `parse_speak_tags` removes only the first block's
tag-to-tag substring, so its `text` output still contains the second
voice tag and re-running the extractor on it reports a voice again. -/
theorem claim_C8_counterexample :
    (parse_speak_tags ((parse_speak_tags
        ("<|voice style=\"a\"|>x<|/voice|><|voice style=\"b\"|>y<|/voice|>".toList)).text)).has_voice
      = true := by
  decide

/-- Helper: `has_voice` is false exactly on texts whose resolver output
is empty. -/
theorem parse_speak_tags_no_blocks (d : List Char)
    (h : _parse_voice_tags_with_stack d = []) :
    (parse_speak_tags d).has_voice = false := by
  simp [parse_speak_tags, h]

/-- Claim C8 (status: corrected), amended: re-running the extractor on
a segment's own `displayText` yields `has_voice = false` whenever that
`displayText` has no remaining voice tag (no resolved block); removing
the first block's substring does not guarantee this when further
blocks, unclosed opens, or junction-formed tags remain. -/
theorem claim_C8_amended (s : List Char)
    (h : _parse_voice_tags_with_stack ((parse_speak_tags s).text) = []) :
    (parse_speak_tags ((parse_speak_tags s).text)).has_voice = false :=
  parse_speak_tags_no_blocks _ h

/-- Witness for the amended C8: a single-tag text whose displayText is
plain. -/
theorem claim_C8_witness :
    _parse_voice_tags_with_stack
        ((parse_speak_tags ("hi <|voice style=\"a\"|>x<|/voice|>".toList)).text) = [] ∧
      (parse_speak_tags ((parse_speak_tags
        ("hi <|voice style=\"a\"|>x<|/voice|>".toList)).text)).has_voice = false :=
  ⟨by decide, claim_C8_amended _ (by decide)⟩

/-- Claim C10 (status: confirmed).  In `_send_voice_file` the base64
delivery attempt never reaches the `Voice` call: the f-string
`f'base64://{voice_data:.128f}'` applies the float format code `.128f`
to a `str` and raises `ValueError` first.  Hence, for every oracle and
file, the trace is exactly: debug log for the failed base64 method,
then the local-file-path fallback (a `sendVoice` with the plain path
when the adapter accepts it, a warning when it also fails); no
`base64://` URI is ever sent and no exception escapes. -/
theorem claim_C10_base64_never_sends (o : SendOracle) (voice_file : List Char) :
    _send_voice_file o voice_file =
      if o.voiceSendFails voice_file = true then
        (([SendEvent.logDebug, SendEvent.logWarn] : List SendEvent),
          (none : Option PyExc))
      else ([SendEvent.logDebug, SendEvent.sendVoice voice_file, SendEvent.logInfo],
          none) := by
  by_cases h : o.voiceSendFails voice_file
  · simp [_send_voice_file, fstringBase64, pyFormatF128Str, adapterVoice, pseq, h]
  · simp [_send_voice_file, fstringBase64, pyFormatF128Str, adapterVoice, pseq, h]

/-! ### Refinement views of the splitter -/

/-- Condition under which the implicit-split loop accepts a
`<|/voice|>` match (spec words): the stripped remainder after the match
end is non-empty, the end offset is not strictly inside another voice
block, and the remainder does not begin with a voice-open tag at offset
0. -/
def implicitCond (text : List Char) (blocks : List VoiceBlock)
    (m : Nat × Unit × Nat) : Bool :=
  let remaining := pyStrip (text.drop m.2.2)
  !remaining.isEmpty && !insideAnyBlock blocks m.2.2 &&
    (match findFrom matchVoiceOpenHeadAt remaining with
     | none => true
     | some nvs => decide (0 < nvs.1))

/-- The two segments produced by an implicit split at close-tag end
offset `e`. -/
def implicitSplitAt (text : List Char) (e : Nat) : List MsgInfo :=
  [MsgInfo.mk (pyStrip (text.take e)) 0, MsgInfo.mk (pyStrip (text.drop e)) 1]

theorem implicitSplit_cons_true (text : List Char) (blocks : List VoiceBlock)
    (m : Nat × Unit × Nat) (rest : List (Nat × Unit × Nat))
    (h : implicitCond text blocks m = true) :
    implicitSplit text blocks (m :: rest) = some (implicitSplitAt text m.2.2) := by
  simp only [implicitCond, Bool.and_eq_true, Bool.not_eq_true'] at h
  obtain ⟨⟨h1, h2⟩, h3⟩ := h
  have h1' : pyStrip (text.drop m.2.2) ≠ [] := by
    simpa [List.isEmpty_iff] using h1
  simp only [implicitSplit]
  rw [if_pos ⟨h1', h2⟩]
  cases hf : findFrom matchVoiceOpenHeadAt (pyStrip (text.drop m.2.2)) with
  | none => simp [implicitSplitAt, h1']
  | some nvs =>
    rw [hf] at h3
    have : 0 < nvs.1 := by simpa using h3
    simp [this, implicitSplitAt, h1']

theorem implicitSplit_cons_false (text : List Char) (blocks : List VoiceBlock)
    (m : Nat × Unit × Nat) (rest : List (Nat × Unit × Nat))
    (h : implicitCond text blocks m = false) :
    implicitSplit text blocks (m :: rest) = implicitSplit text blocks rest := by
  simp only [implicitSplit]
  simp only [implicitCond, Bool.and_eq_false_iff, Bool.not_eq_false'] at h
  by_cases h1 : pyStrip (text.drop m.2.2) = []
  · rw [if_neg (by simp [h1])]
  · by_cases h2 : insideAnyBlock blocks m.2.2 = true
    · rw [if_neg (by simp [h2])]
    · have h2' : insideAnyBlock blocks m.2.2 = false := by
        simpa using h2
      rw [if_pos ⟨h1, h2'⟩]
      rcases h with (h' | h') | h'
      · exact absurd (by simpa [List.isEmpty_iff] using h') h1
      · exact absurd h' (by simp [h2'])
      · cases hf : findFrom matchVoiceOpenHeadAt (pyStrip (text.drop m.2.2)) with
        | none => rw [hf] at h'; simp at h'
        | some nvs =>
          rw [hf] at h'
          have : ¬ 0 < nvs.1 := by simpa using h'
          simp [this]

/-- The implicit-split loop returns the split at the *first* match
satisfying `implicitCond`, and `none` when no match does. -/
theorem implicitSplit_eq_find (text : List Char) (blocks : List VoiceBlock) :
    ∀ ms : List (Nat × Unit × Nat),
      implicitSplit text blocks ms =
        (ms.find? (implicitCond text blocks)).map
          (fun m => implicitSplitAt text m.2.2) := by
  intro ms
  induction ms with
  | nil => simp [implicitSplit]
  | cons m rest ih =>
    cases hc : implicitCond text blocks m with
    | true =>
      rw [implicitSplit_cons_true text blocks m rest hc, List.find?_cons_of_pos _ hc]
      rfl
    | false =>
      rw [implicitSplit_cons_false text blocks m rest hc,
        List.find?_cons_of_neg _ (by simp [hc]), ih]

/-- Wait matches surviving the inside-a-voice-block check. -/
def validWaitMatches (text : List Char) (blocks : List VoiceBlock) :
    List (Nat × List Char × Nat) :=
  (waitMatches text).filter (fun m => !insideAnyBlock blocks m.1)

/-- The parts list determined directly by a list of valid separators:
alternating stripped content runs (from the previous separator's end to
the next separator's start) and captured delay digit strings. -/
def partsOfValid (text : List Char) :
    Nat → List (Nat × List Char × Nat) → List (List Char)
  | _, [] => []
  | cur, m :: rest =>
    pyStrip (pySlice text cur m.1) :: m.2.1 :: partsOfValid text m.2.2 rest

/-- Position after the last valid separator (or the start position when
there is none). -/
def curAfter : Nat → List (Nat × List Char × Nat) → Nat
  | cur, [] => cur
  | _, m :: rest => curAfter m.2.2 rest

theorem waitScan_foldl_eq (text : List Char) (blocks : List VoiceBlock) :
    ∀ (ms : List (Nat × List Char × Nat)) (parts : List (List Char))
      (cur : Nat) (hw : Bool),
      ms.foldl (waitScanStep text blocks) (parts, cur, hw) =
        (parts ++ partsOfValid text cur
            (ms.filter (fun m => !insideAnyBlock blocks m.1)),
          curAfter cur (ms.filter (fun m => !insideAnyBlock blocks m.1)),
          hw || !(ms.filter (fun m => !insideAnyBlock blocks m.1)).isEmpty) := by
  intro ms
  induction ms with
  | nil => intro parts cur hw; simp [partsOfValid, curAfter]
  | cons m rest ih =>
    intro parts cur hw
    cases hin : insideAnyBlock blocks m.1 with
    | true =>
      have hstep : waitScanStep text blocks (parts, cur, hw) m = (parts, cur, hw) := by
        simp [waitScanStep, hin]
      simp only [List.foldl_cons, hstep, List.filter_cons, hin, Bool.not_true]
      exact ih parts cur hw
    | false =>
      have hstep : waitScanStep text blocks (parts, cur, hw) m =
          (parts ++ [pyStrip (pySlice text cur m.1), m.2.1], m.2.2, true) := by
        simp [waitScanStep, hin]
      simp only [List.foldl_cons, hstep, List.filter_cons, hin, Bool.not_false,
        if_pos]
      rw [ih (parts ++ [pyStrip (pySlice text cur m.1), m.2.1]) m.2.2 true]
      simp [partsOfValid, curAfter]

/-- Claim C5 (status: confirmed).  The separator scan of
`parse_multi_messages` is exactly the partition induced by the wait
matches lying outside every resolved voice-block span: a wait match
whose start offset is strictly inside any block span (paired, orphan
marker, or unclosed) contributes nothing to the parts, does not move
the split position, and does not set the has-separator flag; the
partition is determined solely by the matches outside all spans. -/
theorem claim_C5_separators_outside_blocks_partition (text : List Char) :
    waitScan text (_parse_voice_tags_with_stack text) =
      (partsOfValid text 0
          (validWaitMatches text (_parse_voice_tags_with_stack text)),
        curAfter 0 (validWaitMatches text (_parse_voice_tags_with_stack text)),
        !(validWaitMatches text (_parse_voice_tags_with_stack text)).isEmpty) := by
  unfold waitScan validWaitMatches
  rw [waitScan_foldl_eq]
  simp

/-! ### Claims C3 and C6 -/

/-- Helper: `parse_multi_messages` never returns more than 3 segments
(the unclosed fallback and the implicit-none fallback return 1, the
implicit split returns 2, and the explicit branch truncates to 3). -/
theorem parse_multi_messages_length_le (text : List Char) :
    (parse_multi_messages text).length ≤ 3 := by
  cases hU : ((_parse_voice_tags_with_stack text).getLast?.map VoiceBlock.is_unclosed).getD false with
  | true => simp [parse_multi_messages, parse_multi_core, hU]
  | false =>
    cases hW : (waitScan text (_parse_voice_tags_with_stack text)).2.2 with
    | false =>
      cases hfind : (voiceEndMatches text).find?
          (implicitCond text (_parse_voice_tags_with_stack text)) with
      | some m =>
        have hI : implicitSplit text (_parse_voice_tags_with_stack text)
            (voiceEndMatches text) = some (implicitSplitAt text m.2.2) := by
          rw [implicitSplit_eq_find, hfind]; rfl
        simp [parse_multi_messages, parse_multi_core, hU, hW, hI, implicitSplitAt]
      | none =>
        have hI : implicitSplit text (_parse_voice_tags_with_stack text)
            (voiceEndMatches text) = none := by
          rw [implicitSplit_eq_find, hfind]; rfl
        simp [parse_multi_messages, parse_multi_core, hU, hW, hI]
    | true =>
      by_cases h3 : 3 < (buildMessages (explicitParts text
          (_parse_voice_tags_with_stack text))).length
      · simp [parse_multi_messages, parse_multi_core, hU, hW, h3]
      · simp [parse_multi_messages, parse_multi_core, hU, hW, h3]
        omega

/-- Claim C3 (status: corrected), counterexample.  A text that is a
single wait separator has one content run stripping to empty on each
side, so `parse_multi_messages` returns the empty list — the claimed
lower bound of 1 segment fails. -/
theorem claim_C3_counterexample :
    parse_multi_messages ("<|wait time=\"1\"|>".toList) = [] ∧
      (parse_multi_messages ("<|wait time=\"1\"|>".toList)).length = 0 := by
  decide

/-- Claim C3 (status: corrected), amended: `parse_multi_messages`
returns between 0 and 3 segments (0 is possible when every
wait-separated content run strips to empty); moreover, in the
explicit-separator branch (no unclosed tag, at least one valid
separator), when the built message list exceeds 3 entries exactly its
first 3 entries are returned — in original order with their attached
delays — and the truncation event is recorded. -/
theorem claim_C3_amended (text : List Char) :
    (parse_multi_messages text).length ≤ 3 ∧
      (((_parse_voice_tags_with_stack text).getLast?.map VoiceBlock.is_unclosed).getD false
          = false →
        (waitScan text (_parse_voice_tags_with_stack text)).2.2 = true →
        3 < (buildMessages (explicitParts text (_parse_voice_tags_with_stack text))).length →
          parse_multi_messages text
              = (buildMessages (explicitParts text (_parse_voice_tags_with_stack text))).take 3
            ∧ (parse_multi_core text).truncation_warning = true) := by
  refine ⟨parse_multi_messages_length_le text, ?_⟩
  intro hU hW h3
  constructor
  · simp [parse_multi_messages, parse_multi_core, hU, hW, h3]
  · simp [parse_multi_core, hU, hW, h3]

/-- Input with five wait-separated content runs. -/
def fiveRunText : List Char :=
  "a<|wait time=\"1\"|>b<|wait time=\"2\"|>c<|wait time=\"3\"|>d<|wait time=\"4\"|>e".toList

/-- Witness for the amended C3: five wait-separated runs truncate to
the first three with their attached delays. -/
theorem claim_C3_witness :
    (((_parse_voice_tags_with_stack fiveRunText).getLast?.map VoiceBlock.is_unclosed).getD false
        = false
      ∧ (waitScan fiveRunText (_parse_voice_tags_with_stack fiveRunText)).2.2 = true
      ∧ 3 < (buildMessages (explicitParts fiveRunText
            (_parse_voice_tags_with_stack fiveRunText))).length)
    ∧ (parse_multi_messages fiveRunText
          = (buildMessages (explicitParts fiveRunText
              (_parse_voice_tags_with_stack fiveRunText))).take 3
        ∧ (parse_multi_core fiveRunText).truncation_warning = true) :=
  ⟨⟨by decide, by decide, by decide⟩,
    (claim_C3_amended fiveRunText).2 (by decide) (by decide) (by decide)⟩

/-- Claim C6 (status: corrected), counterexample.  The close tag here
uses the accepted spelling `</voice>` (resolver variant 4); its end
offset 29 is followed by the non-empty trimmed text `bye`, which is
outside every block and does not start a voice-open tag; there is no
wait separator and no unclosed tag.  The claim then requires two
segments, but the implicit split searches only for the `<|/voice|>`
spelling, finds nothing, and `parse_multi_messages` returns one single
segment. -/
theorem claim_C6_counterexample :
    (matchCloseSlash ['>'] (("<|voice style=\"s\"|>hi</voice> bye".toList).drop 21)
        = some ((), 8)
      ∧ pyStrip (("<|voice style=\"s\"|>hi</voice> bye".toList).drop 29) = "bye".toList
      ∧ _parse_voice_tags_with_stack ("<|voice style=\"s\"|>hi</voice> bye".toList)
          = [VoiceBlock.mk 0 29 "s".toList "hi".toList false]
      ∧ waitMatches ("<|voice style=\"s\"|>hi</voice> bye".toList) = [])
    ∧ parse_multi_messages ("<|voice style=\"s\"|>hi</voice> bye".toList)
        = [MsgInfo.mk ("<|voice style=\"s\"|>hi</voice> bye".toList) 0] := by
  decide

/-- Claim C6 (status: corrected), amended: with no valid wait separator
and no unclosed tag, if some close tag *in the `<|/voice|>` spelling*
(case-insensitive, flexible whitespace — not the other three
spellings) has an end offset followed by non-empty trimmed trailing
text that is not strictly inside another voice block and does not begin
with a voice-open tag at offset 0 of the remainder, then
`parse_multi_messages` splits at the first such match into exactly two
segments: the stripped prefix with delay 0 and the stripped remainder
with delay 1. -/
theorem claim_C6_amended (text : List Char)
    (hU : ((_parse_voice_tags_with_stack text).getLast?.map VoiceBlock.is_unclosed).getD false
        = false)
    (hW : (waitScan text (_parse_voice_tags_with_stack text)).2.2 = false)
    (m : Nat × Unit × Nat)
    (hF : (voiceEndMatches text).find?
        (implicitCond text (_parse_voice_tags_with_stack text)) = some m) :
    parse_multi_messages text =
      [MsgInfo.mk (pyStrip (text.take m.2.2)) 0,
        MsgInfo.mk (pyStrip (text.drop m.2.2)) 1] := by
  have hI : implicitSplit text (_parse_voice_tags_with_stack text) (voiceEndMatches text)
      = some (implicitSplitAt text m.2.2) := by
    rw [implicitSplit_eq_find, hF]; rfl
  simp [parse_multi_messages, parse_multi_core, hU, hW, hI, implicitSplitAt]

/-- Input with a `<|/voice|>` close tag followed by trailing text. -/
def implicitSplitText : List Char :=
  "<|voice style=\"s\"|>hi<|/voice|> bye".toList

/-- Witness for the amended C6: a `<|/voice|>` close followed by
trailing text splits into two segments with implicit delay 1. -/
theorem claim_C6_witness :
    (((_parse_voice_tags_with_stack implicitSplitText).getLast?.map VoiceBlock.is_unclosed).getD
        false = false
      ∧ (waitScan implicitSplitText (_parse_voice_tags_with_stack implicitSplitText)).2.2 = false
      ∧ (voiceEndMatches implicitSplitText).find?
          (implicitCond implicitSplitText (_parse_voice_tags_with_stack implicitSplitText))
          = some (21, (), 31))
    ∧ parse_multi_messages implicitSplitText
        = [MsgInfo.mk (pyStrip (implicitSplitText.take 31)) 0,
            MsgInfo.mk (pyStrip (implicitSplitText.drop 31)) 1] :=
  ⟨⟨by decide, by decide, by decide⟩,
    claim_C6_amended implicitSplitText (by decide) (by decide) (21, (), 31) (by decide)⟩

/-! ### Claim C9 -/

/-- Spec-side view of the delivery loop (spec section 4.5): each
segment's trace is computed independently of every other segment —
the optional inter-segment sleep, then that segment's own isolated
delivery trace — and the traces are concatenated over all segments in
order. -/
def scheduledTrace (o : SendOracle) : Nat → List MsgInfo → List SendEvent
  | _, [] => []
  | i, m :: rest =>
    (if 0 < i ∧ 0 < m.delay then [SendEvent.sleep m.delay] else [])
      ++ (_send_single_message o m.content).1
      ++ scheduledTrace o (i + 1) rest

theorem tryLogErr_no_exc (body : TraceR) : (tryLogErr body).2 = none := by
  rcases body with ⟨evs, e⟩
  cases e <;> rfl

/-- The per-segment `try/except` guarantees a single delivery never
raises. -/
theorem send_single_no_exc (o : SendOracle) (message : List Char) :
    (_send_single_message o message).2 = none :=
  tryLogErr_no_exc _

/-- The delivery loop, whose sequencing (`pseq`) would abort on an
uncaught exception, in fact never aborts: its trace is the per-segment
independent concatenation, for every oracle. -/
theorem sendLoop_eq_scheduledTrace (o : SendOracle) :
    ∀ (msgs : List MsgInfo) (i : Nat),
      sendLoop o i msgs = (scheduledTrace o i msgs, none) := by
  intro msgs
  induction msgs with
  | nil => intro i; rfl
  | cons m rest ih =>
    intro i
    have hs := send_single_no_exc o m.content
    rcases hsm : _send_single_message o m.content with ⟨evs, e⟩
    rw [hsm] at hs
    simp only at hs
    subst hs
    by_cases hd : 0 < i ∧ 0 < m.delay
    · simp [sendLoop, scheduledTrace, pseq, hsm, ih (i + 1), hd]
    · simp [sendLoop, scheduledTrace, pseq, hsm, ih (i + 1), hd]

/-- Claim C9 (status: confirmed).  For every oracle (hence for every
pattern of send/synthesis failures) and every response:
`MessageSender.send` never propagates an exception to its caller, and
its trace is exactly the independent per-segment concatenation — a
failing segment is caught and logged inside `_send_single_message` and
every subsequent segment is still attempted. -/
theorem claim_C9_failure_isolation (o : SendOracle) (response : List Char) :
    (MessageSender_send o response).2 = none ∧
      (MessageSender_send o response).1 =
        (if (parse_multi_messages response).isEmpty then [SendEvent.logWarn]
         else scheduledTrace o 0 (parse_multi_messages response)) := by
  unfold MessageSender_send
  by_cases h : (parse_multi_messages response).isEmpty
  · simp [h]
  · simp [h, sendLoop_eq_scheduledTrace]

/-! ### Claim C7: tag consumption order of the resolver scan -/

theorem expectLit_eq_some {l : List Char} :
    ∀ {cs r : List Char}, expectLit l cs = some r ↔ cs = l ++ r := by
  induction l with
  | nil => intro cs r; simp [expectLit]
  | cons a l ih =>
    intro cs r
    cases cs with
    | nil => simp [expectLit]
    | cons c cs =>
      simp only [expectLit, List.cons_append]
      by_cases h : c = a
      · subst h
        simp [ih]
      · simp [h, Ne.symm h]

/-- Whichever spelling matched, an open-tag match pins the underlying
shape: the suffix starts with `<|`, and after the whitespace the next
characters are exactly `voice`. -/
theorem matchOpenQD_shape {q : Char} {d cs : List Char} {x : List Char × Nat}
    (h : matchOpenQD q d cs = some x) :
    ∃ r1 r3 : List Char,
      cs = '<' :: '|' :: r1 ∧
        dropWs r1 = 'v' :: 'o' :: 'i' :: 'c' :: 'e' :: r3 := by
  unfold matchOpenQD at h
  simp only [Option.bind_eq_bind, Option.bind_eq_some] at h
  obtain ⟨r1, h1, h⟩ := h
  obtain ⟨r3, h3, -⟩ := h
  refine ⟨r1, r3, ?_, ?_⟩
  · simpa using expectLit_eq_some.mp h1
  · simpa using expectLit_eq_some.mp h3

/-- A close spelling `<|...` cannot match where an open tag matches:
after `<|` and the whitespace it needs `/` where the open has `v`. -/
theorem matchClosePipe_none_of_open {d r1 r3 : List Char}
    (hv : dropWs r1 = 'v' :: 'o' :: 'i' :: 'c' :: 'e' :: r3) :
    matchClosePipe d ('<' :: '|' :: r1) = none := by
  have h1 : expectLit ['<', '|'] ('<' :: '|' :: r1) = some r1 :=
    expectLit_eq_some.mpr rfl
  simp [matchClosePipe, h1, hv, expectLit]

/-- A close spelling `</...` cannot match where an open tag matches:
the open's second character is `|`, not `/`. -/
theorem matchCloseSlash_none_of_open (d r1 : List Char) :
    matchCloseSlash d ('<' :: '|' :: r1) = none := by
  simp [matchCloseSlash, expectLit]

/-- No position matches both an open tag and a close tag: the
defensive same-offset tie of the scan can never arise. -/
theorem open_close_disjoint {cs : List Char} {x : List Char × Nat}
    (h : matchOpenAt cs = some x) : matchCloseAt cs = none := by
  have hshape : ∃ r1 r3 : List Char,
      cs = '<' :: '|' :: r1 ∧
        dropWs r1 = 'v' :: 'o' :: 'i' :: 'c' :: 'e' :: r3 := by
    rcases h1 : matchOpenQD '"' ['|', '>'] cs with _ | y1
    · rcases h2 : matchOpenQD '"' ['>'] cs with _ | y2
      · rcases h3 : matchOpenQD '\'' ['|', '>'] cs with _ | y3
        · rcases h4 : matchOpenQD '\'' ['>'] cs with _ | y4
          · exfalso
            rw [matchOpenAt, h1, h2, h3, h4] at h
            simp [Option.orElse] at h
          · exact matchOpenQD_shape h4
        · exact matchOpenQD_shape h3
      · exact matchOpenQD_shape h2
    · exact matchOpenQD_shape h1
  obtain ⟨r1, r3, hcs, hv⟩ := hshape
  subst hcs
  simp [matchCloseAt, matchClosePipe_none_of_open hv,
    matchCloseSlash_none_of_open, Option.orElse]

theorem findOpenFrom_matches {text : List Char} {i : Nat} {om : OpenMatch}
    (h : findOpenFrom text i = some om) :
    matchOpenAt (text.drop om.start) = some (om.style, om.stop - om.start) := by
  unfold findOpenFrom at h
  obtain ⟨⟨p, st, n⟩, hf, hom⟩ := Option.map_eq_some'.mp h
  obtain ⟨hm, -⟩ := (findFrom_some_iff matchOpenAt st n (text.drop i) p).mp hf
  rw [List.drop_drop] at hm
  cases hom
  simpa using hm

theorem findCloseFrom_matches {text : List Char} {i : Nat} {em : CloseMatch}
    (h : findCloseFrom text i = some em) :
    matchCloseAt (text.drop em.start) = some ((), em.stop - em.start) := by
  unfold findCloseFrom at h
  obtain ⟨⟨p, u, n⟩, hf, hem⟩ := Option.map_eq_some'.mp h
  obtain ⟨hm, -⟩ := (findFrom_some_iff matchCloseAt u n (text.drop i) p).mp hf
  rw [List.drop_drop] at hm
  cases hem
  simpa using hm

/-- Claim C7 (status: confirmed).  At every step of the resolver scan
with both an open and a close occurrence ahead, their start offsets
always differ — the same-offset tie the spec's defensive rule talks
about can never arise (`open_close_disjoint`), so the tie clause holds
vacuously — and the occurrence with the strictly smaller start offset
is the one consumed: an earlier open is pushed and the scan resumes at
its end; an earlier close pairs with (or orphans past) the stack top
and the scan resumes at its end. -/
theorem claim_C7_scan_consumes_smaller_offset (text : List Char)
    (fuel i : Nat) (stack : List OpenEntry) (blocks : List VoiceBlock)
    (om : OpenMatch) (em : CloseMatch)
    (hi : i < text.length)
    (ho : findOpenFrom text i = some om)
    (hc : findCloseFrom text i = some em) :
    om.start ≠ em.start ∧
      (om.start < em.start →
        parseLoop text (fuel + 1) i stack blocks =
          parseLoop text fuel om.stop
            (OpenEntry.mk om.start om.stop (pyStrip om.style) om.stop :: stack)
            blocks) ∧
      (em.start < om.start →
        parseLoop text (fuel + 1) i stack blocks =
          match stack with
          | top :: rest =>
            parseLoop text fuel em.stop rest
              (blocks ++ [VoiceBlock.mk top.start em.stop top.style
                (pyStrip (pySlice text top.content_start em.start)) false])
          | [] =>
            parseLoop text fuel em.stop []
              (blocks ++ [VoiceBlock.mk em.start em.stop [] [] false])) := by
  refine ⟨?_, ?_, ?_⟩
  · intro heq
    have hopen := findOpenFrom_matches ho
    have hclose := findCloseFrom_matches hc
    rw [← heq] at hclose
    rw [open_close_disjoint hopen] at hclose
    cases hclose
  · intro hlt
    simp [parseLoop, hi, ho, hc, hlt]
  · intro hlt
    have hnlt : ¬ om.start < em.start := by omega
    cases stack with
    | nil => simp [parseLoop, hi, ho, hc, hnlt]
    | cons top rest => simp [parseLoop, hi, ho, hc, hnlt]

/-- Witness for C7: a text with an open tag at offset 1 and a close
tag at offset 21; the open is earlier and is consumed first. -/
def tieText : List Char := "a<|voice style=\"x\"|>b<|/voice|>".toList

theorem claim_C7_witness :
    (0 < tieText.length
        ∧ findOpenFrom tieText 0 = some (OpenMatch.mk 1 20 ['x'])
        ∧ findCloseFrom tieText 0 = some (CloseMatch.mk 21 31))
      ∧ (OpenMatch.mk 1 20 ['x']).start ≠ (CloseMatch.mk 21 31).start
      ∧ parseLoop tieText 1 0 [] [] =
          parseLoop tieText 0 20 [OpenEntry.mk 1 20 (pyStrip ['x']) 20] [] :=
  ⟨⟨by decide, by decide, by decide⟩,
    (claim_C7_scan_consumes_smaller_offset tieText 0 0 [] []
        (OpenMatch.mk 1 20 ['x']) (CloseMatch.mk 21 31)
        (by decide) (by decide) (by decide)).1,
    (claim_C7_scan_consumes_smaller_offset tieText 0 0 [] []
        (OpenMatch.mk 1 20 ['x']) (CloseMatch.mk 21 31)
        (by decide) (by decide) (by decide)).2.1 (by decide)⟩

/-! ### Claim C4: single well-formed voice pair -/

theorem matchOpenAt_drop_none_of_le {text : List Char} {p : Nat}
    (h : text.length ≤ p) : matchOpenAt (text.drop p) = none := by
  rw [List.drop_eq_nil_of_le h]; exact matchOpenAt_nil

theorem matchCloseAt_drop_none_of_le {text : List Char} {p : Nat}
    (h : text.length ≤ p) : matchCloseAt (text.drop p) = none := by
  rw [List.drop_eq_nil_of_le h]; exact matchCloseAt_nil

/-- Claim C4 (status: confirmed).  For a text containing exactly one
open-tag occurrence (at offset `po`, matched with captured style `st`
and length `olen`), exactly one close-tag occurrence (at offset `pc`,
length `clen`, at or after the open tag's end), and no wait-separator
occurrence, `parse_speak_tags` reports `has_voice = true`,
`voice_style` = the captured style trimmed, `voice_content` = the text
strictly between the two tags trimmed, and `text` = the input with one
occurrence of the tag-to-tag substring `text[po : pc + clen]` removed
and then trimmed. -/
theorem claim_C4_single_voice_pair_extraction (text : List Char)
    (po pc olen clen : Nat) (st : List Char)
    (hOpen : matchOpenAt (text.drop po) = some (st, olen))
    (hOpenU : ∀ p : Nat, p ≤ text.length → p ≠ po → matchOpenAt (text.drop p) = none)
    (hClose : matchCloseAt (text.drop pc) = some ((), clen))
    (hCloseU : ∀ p : Nat, p ≤ text.length → p ≠ pc → matchCloseAt (text.drop p) = none)
    (hOrder : po + olen ≤ pc)
    (hOlen : 0 < olen) (hClen : 0 < clen)
    (_hNoWait : ∀ p : Nat, p ≤ text.length → matchWaitAt (text.drop p) = none) :
    parse_speak_tags text = SpeakResult.mk
      (pyStrip (removeFirst (pySlice text po (pc + clen)) text))
      (some (pyStrip st))
      (some (pyStrip (pySlice text (po + olen) pc)))
      true := by
  have hpo : po < text.length := by
    by_contra hge
    rw [matchOpenAt_drop_none_of_le (by omega)] at hOpen
    cases hOpen
  have hpc : pc < text.length := by
    by_contra hge
    rw [matchCloseAt_drop_none_of_le (by omega)] at hClose
    cases hClose
  have hOpenU' : ∀ p : Nat, p ≠ po → matchOpenAt (text.drop p) = none := by
    intro p hp
    by_cases hple : p ≤ text.length
    · exact hOpenU p hple hp
    · exact matchOpenAt_drop_none_of_le (by omega)
  have hCloseU' : ∀ p : Nat, p ≠ pc → matchCloseAt (text.drop p) = none := by
    intro p hp
    by_cases hple : p ≤ text.length
    · exact hCloseU p hple hp
    · exact matchCloseAt_drop_none_of_le (by omega)
  have hfo0 : findOpenFrom text 0 = some (OpenMatch.mk po (po + olen) st) := by
    unfold findOpenFrom
    have hff : findFrom matchOpenAt (text.drop 0) = some (po, st, olen) := by
      rw [List.drop_zero]
      refine (findFrom_some_iff matchOpenAt st olen text po).mpr ⟨hOpen, ?_⟩
      intro q hq
      exact hOpenU' q (by omega)
    rw [hff]
    simp
  have hfc0 : findCloseFrom text 0 = some (CloseMatch.mk pc (pc + clen)) := by
    unfold findCloseFrom
    have hff : findFrom matchCloseAt (text.drop 0) = some (pc, (), clen) := by
      rw [List.drop_zero]
      refine (findFrom_some_iff matchCloseAt () clen text pc).mpr ⟨hClose, ?_⟩
      intro q hq
      exact hCloseU' q (by omega)
    rw [hff]
    simp
  have hfoAfter : ∀ j : Nat, po < j → findOpenFrom text j = none := by
    intro j hj
    unfold findOpenFrom
    have hff : findFrom matchOpenAt (text.drop j) = none := by
      rw [findFrom_none_iff]
      intro p
      rw [List.drop_drop]
      exact hOpenU' (j + p) (by omega)
    rw [hff]
    rfl
  have hfcAfter : ∀ j : Nat, pc < j → findCloseFrom text j = none := by
    intro j hj
    unfold findCloseFrom
    have hff : findFrom matchCloseAt (text.drop j) = none := by
      rw [findFrom_none_iff]
      intro p
      rw [List.drop_drop]
      exact hCloseU' (j + p) (by omega)
    rw [hff]
    rfl
  have hfc1 : findCloseFrom text (po + olen) = some (CloseMatch.mk pc (pc + clen)) := by
    unfold findCloseFrom
    have harith : po + olen + (pc - (po + olen)) = pc := by omega
    have hff : findFrom matchCloseAt (text.drop (po + olen))
        = some (pc - (po + olen), (), clen) := by
      refine (findFrom_some_iff matchCloseAt () clen _ _).mpr ⟨?_, ?_⟩
      · rw [List.drop_drop, harith]
        exact hClose
      · intro q hq
        rw [List.drop_drop]
        exact hCloseU' (po + olen + q) (by omega)
    rw [hff]
    simp [harith]
  have hres : _parse_voice_tags_with_stack text =
      [VoiceBlock.mk po (pc + clen) (pyStrip st)
        (pyStrip (pySlice text (po + olen) pc)) false] := by
    unfold _parse_voice_tags_with_stack
    have hlt0 : 0 < text.length := by omega
    have hpoc : po < pc := by omega
    simp only [parseLoop, hlt0, if_pos, hfo0, hfc0, hpoc, if_true]
    obtain ⟨f, hf⟩ : ∃ f, text.length = f + 1 := ⟨text.length - 1, by omega⟩
    rw [hf]
    have hfo1 : findOpenFrom text (po + olen) = none := hfoAfter (po + olen) (by omega)
    have hi1 : po + olen < text.length := by omega
    simp only [parseLoop, hfo1, hfc1, hi1, if_pos]
    cases f with
    | zero => simp [parseLoop, flushStack]
    | succ g =>
      by_cases hi2 : pc + clen < text.length
      · simp only [parseLoop, hi2, if_pos, hfoAfter (pc + clen) (by omega),
          hfcAfter (pc + clen) (by omega)]
        simp [flushStack]
      · simp only [parseLoop, if_neg hi2]
        simp [flushStack]
  unfold parse_speak_tags
  rw [hres]

/-- Witness input for C4: one well-formed pair, no other tag, no wait
separator.  The open tag spans `[3, 26)` with style `happy`, the close
tag spans `[35, 45)`. -/
def singlePairText : List Char :=
  "Hi <|voice style=\"happy\"|>hey there<|/voice|> ok".toList

theorem claim_C4_witness :
    (matchOpenAt (singlePairText.drop 3) = some ("happy".toList, 23)
      ∧ (∀ p : Nat, p ≤ singlePairText.length → p ≠ 3 →
          matchOpenAt (singlePairText.drop p) = none)
      ∧ matchCloseAt (singlePairText.drop 35) = some ((), 10)
      ∧ (∀ p : Nat, p ≤ singlePairText.length → p ≠ 35 →
          matchCloseAt (singlePairText.drop p) = none)
      ∧ 3 + 23 ≤ 35 ∧ 0 < 23 ∧ 0 < 10
      ∧ (∀ p : Nat, p ≤ singlePairText.length →
          matchWaitAt (singlePairText.drop p) = none))
    ∧ parse_speak_tags singlePairText = SpeakResult.mk
        (pyStrip (removeFirst (pySlice singlePairText 3 (35 + 10)) singlePairText))
        (some (pyStrip ("happy".toList)))
        (some (pyStrip (pySlice singlePairText (3 + 23) 35)))
        true :=
  ⟨⟨by decide, by decide, by decide, by decide, by decide, by decide, by decide, by decide⟩,
    claim_C4_single_voice_pair_extraction singlePairText 3 35 23 10 ("happy".toList)
      (by decide) (by decide) (by decide) (by decide) (by decide) (by decide)
      (by decide) (by decide)⟩
